import Mathlib

/-!
Verification development for the uber-compiler orchestration logic
(source file index.js).  The JavaScript source is shallowly embedded:
JS strings are modelled as lists of UTF-16 code units (List Nat), the
filesystem as an inductive tree, machine integers as Int with explicit
wrapping to the signed 32-bit range, and the event-driven coordinator
as explicit state passing with an emitted event list.
-/

namespace Uber

/-- A JavaScript string, as its sequence of UTF-16 code units
(charCodeAt yields code units). -/
abbrev JSStr := List Nat

/-- ToInt32 coercion: wrap an integer to the signed 32-bit range,
as performed by the JS bitwise operators (x & x, x << 5). -/
def toInt32 (n : Int) : Int := (n + 2147483648) % 4294967296 - 2147483648

/-- One step of UberCompiler.prototype.addToHash_ :
hash = ((hash << 5) - hash) + code; hash = hash & hash.
The shift truncates its operand to int32 and wraps; the final
self-and wraps the sum back to int32. -/
def hashStep (h : Int) (code : Nat) : Int := toInt32 (toInt32 (h * 32) - h + code)

/-- UberCompiler.prototype.addToHash_ : fold every code unit of the
text into the running hash. -/
def addToHash (hash : Int) (text : JSStr) : Int := text.foldl hashStep hash

/-- The case object branch of getHash_ : every string element of an
array-valued field is folded into the hash (array iteration order). -/
def hashArrayField (h : Int) (arr : List JSStr) : Int := arr.foldl addToHash h

/-- The case boolean branch of getHash_ : a boolean field contributes
the single character Y (89) when true and n (110) when false. -/
def hashBoolField (h : Int) (b : Bool) : Int := addToHash h (if b then [89] else [110])

/-- The fields of an UberCompiler instance that exist when getHash_
runs (the constructor calls it on line 116, after the assignments of
lines 95-115 and before hash/endCallback/fileChanged* are set).
Field order is the property insertion order, which is the for-in
enumeration order used by getHash_. -/
structure UberState where
  jsPaths : List JSStr
  externPaths : List JSStr
  cssPaths : List JSStr
  outputDir : JSStr
  moduleName : JSStr
  useHash : Bool
  dontWatchFiles : Bool
  compileMode : JSStr
  prettyPrint : Bool
  compressCss : Bool
  warningLevel : JSStr
  files : List JSStr
deriving DecidableEq

/-- The constructor options object.  Absent options are none.  The
endCallback is modelled only by its presence: a function-valued field
is ignored by getHash_ (typeof function falls into the default case)
and the assignment on line 118 happens after getHash_ has run. -/
structure UberOptions where
  jsPaths : Option (List JSStr)
  externPaths : Option (List JSStr)
  cssPaths : Option (List JSStr)
  outputDir : Option JSStr
  moduleName : Option JSStr
  useHash : Option Bool
  dontWatchFiles : Option Bool
  debug : Option Bool
  compileMode : Option JSStr
  prettyPrint : Option Bool
  warningLevel : Option JSStr
  hasEndCallback : Bool

/-- Code units of an ASCII string literal. -/
def jsCodes (s : String) : JSStr := s.data.map Char.toNat

/-- JS defaulting with || for string options: undefined and the empty
string (both falsy) fall back to the default. -/
def jsStrOr (v : Option JSStr) (d : JSStr) : JSStr :=
  match v with
  | none => d
  | some s => if s.isEmpty then d else s

/-- The state of an UberCompiler instance at the moment getHash_ is
called from the constructor (lines 94-116): defaults applied, advanced
overrides applied, files still the empty array, hash and endCallback
not yet assigned. -/
def mkPreHashState (o : UberOptions) : UberState :=
  let debug := o.debug.getD false
  { jsPaths := o.jsPaths.getD []
    externPaths := o.externPaths.getD []
    cssPaths := o.cssPaths.getD []
    outputDir := jsStrOr o.outputDir (jsCodes "/tmp/")
    moduleName := jsStrOr o.moduleName (jsCodes "cached")
    useHash := o.useHash.getD false
    dontWatchFiles := o.dontWatchFiles.getD false
    compileMode :=
      match o.compileMode with
      | some s => s
      | none => if debug then jsCodes "WHITESPACE_ONLY" else jsCodes "SIMPLE_OPTIMIZATIONS"
    prettyPrint :=
      match o.prettyPrint with
      | some b => b
      | none => debug
    compressCss := !debug
    warningLevel := jsStrOr o.warningLevel (jsCodes "QUIET")
    files := [] }

/-- UberCompiler.prototype.getHash_ : start from the salt 275329 and
fold every field in for-in enumeration order (property insertion
order).  Array fields contribute their string elements, boolean fields
a Y/n sentinel, string fields their characters; fields of other types
(the prototype functions) fall into the default case and are ignored. -/
def getHash (s : UberState) : Int :=
  let h := 275329
  let h := hashArrayField h s.jsPaths
  let h := hashArrayField h s.externPaths
  let h := hashArrayField h s.cssPaths
  let h := addToHash h s.outputDir
  let h := addToHash h s.moduleName
  let h := hashBoolField h s.useHash
  let h := hashBoolField h s.dontWatchFiles
  let h := addToHash h s.compileMode
  let h := hashBoolField h s.prettyPrint
  let h := hashBoolField h s.compressCss
  let h := addToHash h s.warningLevel
  let h := hashArrayField h s.files
  h

/-- The hash recurrence as the specification states it: hash becomes
(hash << 5) - hash + c, wrapped once to the signed 32-bit range. -/
def specHashStep (h : Int) (code : Nat) : Int := toInt32 (h * 32 - h + code)

/-- Y/n sentinel of a boolean field. -/
def boolUnits (b : Bool) : JSStr := if b then [89] else [110]

/-- The full character sequence the specification says is hashed:
every string of every array field, every string field, and the
sentinel of every boolean field, in field enumeration order. -/
def configUnits (s : UberState) : JSStr :=
  s.jsPaths.flatten ++ s.externPaths.flatten ++ s.cssPaths.flatten ++
  s.outputDir ++ s.moduleName ++
  boolUnits s.useHash ++ boolUnits s.dontWatchFiles ++
  s.compileMode ++ boolUnits s.prettyPrint ++ boolUnits s.compressCss ++
  s.warningLevel ++ s.files.flatten

theorem toInt32_emod (n : Int) : toInt32 n % 4294967296 = n % 4294967296 := by
  unfold toInt32; omega

theorem toInt32_range (n : Int) : -2147483648 ≤ toInt32 n ∧ toInt32 n < 2147483648 := by
  unfold toInt32
  constructor <;> omega

theorem hashStep_eq_spec (h : Int) (c : Nat) : hashStep h c = specHashStep h c := by
  unfold hashStep specHashStep toInt32
  omega

theorem addToHash_eq_spec (t : JSStr) : ∀ h : Int, addToHash h t = t.foldl specHashStep h := by
  induction t with
  | nil => intro h; rfl
  | cons c rest ih =>
      intro h
      show addToHash (hashStep h c) rest = List.foldl specHashStep (specHashStep h c) rest
      rw [hashStep_eq_spec]
      exact ih (specHashStep h c)

theorem hashArrayField_eq_spec (arr : List JSStr) :
    ∀ h : Int, hashArrayField h arr = arr.flatten.foldl specHashStep h := by
  induction arr with
  | nil => intro h; rfl
  | cons t rest ih =>
      intro h
      show hashArrayField (addToHash h t) rest = List.foldl specHashStep h (t ++ rest.flatten)
      rw [List.foldl_append, ih, addToHash_eq_spec]

theorem hashBoolField_eq_spec (b : Bool) (h : Int) :
    hashBoolField h b = (boolUnits b).foldl specHashStep h := by
  unfold hashBoolField boolUnits
  rw [addToHash_eq_spec]

theorem specHashStep_range (h : Int) (c : Nat) :
    -2147483648 ≤ specHashStep h c ∧ specHashStep h c < 2147483648 :=
  toInt32_range _

theorem foldl_specHashStep_range (l : JSStr) :
    ∀ h : Int, -2147483648 ≤ h ∧ h < 2147483648 →
    -2147483648 ≤ l.foldl specHashStep h ∧ l.foldl specHashStep h < 2147483648 := by
  induction l with
  | nil => intro h hh; exact hh
  | cons c rest ih =>
      intro h _
      exact ih (specHashStep h c) (specHashStep_range h c)

/-- Claim C9: the fingerprint hash starts from the salt constant
275329 and, for each processed character with code unit c, updates
hash to (hash << 5) - hash + c wrapped to the signed 32-bit integer
range; the characters processed are those of every string in every
array-valued field, of every string-valued field, and the single
sentinel character Y (true) or n (false) for every boolean-valued
field, with fields of other kinds ignored.  Second conjunct: the
result indeed lies in the signed 32-bit range. -/
theorem claim_C9 :
    (∀ s : UberState, getHash s = (configUnits s).foldl specHashStep 275329) ∧
    (∀ s : UberState, -2147483648 ≤ getHash s ∧ getHash s < 2147483648) := by
  have key : ∀ s : UberState, getHash s = (configUnits s).foldl specHashStep 275329 := by
    intro s
    simp only [getHash, configUnits]
    rw [List.foldl_append, List.foldl_append, List.foldl_append, List.foldl_append,
       List.foldl_append, List.foldl_append, List.foldl_append, List.foldl_append,
       List.foldl_append, List.foldl_append, List.foldl_append]
    rw [hashArrayField_eq_spec, hashArrayField_eq_spec, hashArrayField_eq_spec,
       addToHash_eq_spec, addToHash_eq_spec, hashBoolField_eq_spec, hashBoolField_eq_spec,
       addToHash_eq_spec, hashBoolField_eq_spec, hashBoolField_eq_spec, addToHash_eq_spec,
       hashArrayField_eq_spec]
  refine ⟨key, fun s => ?_⟩
  rw [key s]
  exact foldl_specHashStep_range _ 275329 (by omega)

/-- Claim C8: the fingerprint is a deterministic pure function of the
build configuration: two instances constructed from options with
identical configuration field values (the completion callback, a
function, is not part of the configuration and is ignored) compute
equal fingerprints. -/
theorem claim_C8 (o1 o2 : UberOptions)
    (h1 : o1.jsPaths = o2.jsPaths) (h2 : o1.externPaths = o2.externPaths)
    (h3 : o1.cssPaths = o2.cssPaths) (h4 : o1.outputDir = o2.outputDir)
    (h5 : o1.moduleName = o2.moduleName) (h6 : o1.useHash = o2.useHash)
    (h7 : o1.dontWatchFiles = o2.dontWatchFiles) (h8 : o1.debug = o2.debug)
    (h9 : o1.compileMode = o2.compileMode) (h10 : o1.prettyPrint = o2.prettyPrint)
    (h11 : o1.warningLevel = o2.warningLevel) :
    getHash (mkPreHashState o1) = getHash (mkPreHashState o2) := by
  have : mkPreHashState o1 = mkPreHashState o2 := by
    unfold mkPreHashState
    rw [h1, h2, h3, h4, h5, h6, h7, h8, h9, h10, h11]
  rw [this]

/-- Witness for claim C8 at concrete options that differ only in the
presence of an endCallback. -/
theorem claim_C8_witness :
    getHash (mkPreHashState
      { jsPaths := some [jsCodes "/a"], externPaths := none, cssPaths := none,
        outputDir := none, moduleName := none, useHash := some true,
        dontWatchFiles := none, debug := none, compileMode := none,
        prettyPrint := none, warningLevel := none, hasEndCallback := true }) =
    getHash (mkPreHashState
      { jsPaths := some [jsCodes "/a"], externPaths := none, cssPaths := none,
        outputDir := none, moduleName := none, useHash := some true,
        dontWatchFiles := none, debug := none, compileMode := none,
        prettyPrint := none, warningLevel := none, hasEndCallback := false }) :=
  claim_C8 _ _ rfl rfl rfl rfl rfl rfl rfl rfl rfl rfl rfl

/-- JS regex line terminators, which the dot metacharacter never matches. -/
def isLineTerminator (c : Char) : Bool :=
  c = '\n' || c = '\r' || c = ' ' || c = ' '

/-- module.exports.getFileExtensionRegex builds
new RegExp with source built from the literal parts and the extension
alternatives.  In a JS string literal a backslash before a dot
collapses to a plain dot, so the compiled regex requires the extension
to be preceded by one arbitrary non-line-terminator character, not by
a literal dot.  The pattern is modelled by its match semantics over
the list of alternatives: a string matches iff some alternative is a
suffix preceded by at least one character, with every character before
the suffix (matched by the dot metacharacters) not a line terminator. -/
def extPatternMatches (alts : List String) (s : String) : Bool :=
  alts.any (fun e =>
    e.data.isSuffixOf s.data && decide (e.data.length + 1 ≤ s.data.length) &&
      (s.data.take (s.data.length - e.data.length)).all (fun c => !isLineTerminator c))

/-- A filesystem node: a plain file or a directory with named children. -/
inductive FsNode where
  | file : FsNode
  | dir : List (String × FsNode) → FsNode

/-- A path, as the list of its segments; rendering joins them the way
path.join does. -/
def renderPath (p : List String) : String := String.mk (List.intercalate ['/'] (p.map String.data))

/-- The backup skip test of findFiles on a directory entry name:
fileNames[i].length > 2 && fileNames[i].substr(0, 2) == the
two-character marker dot underscore. -/
def isBackupName (name : String) : Bool :=
  decide (2 < name.length) && name.data.take 2 == ['.', '_']

/-- Insert an entry into a name-sorted entry list (fileNames.sort()). -/
def insertSorted (e : String × FsNode) : List (String × FsNode) → List (String × FsNode)
  | [] => [e]
  | f :: rest => if e.1 ≤ f.1 then e :: f :: rest else f :: insertSorted e rest

/-- Sort directory entries by name, as fileNames.sort() does before
the scan loop. -/
def sortEntries : List (String × FsNode) → List (String × FsNode)
  | [] => []
  | e :: rest => insertSorted e (sortEntries rest)

theorem sizeOf_insertSorted (e : String × FsNode) (l : List (String × FsNode)) :
    sizeOf (insertSorted e l) = 1 + sizeOf e + sizeOf l := by
  induction l with
  | nil => simp [insertSorted]
  | cons f rest ih =>
      simp only [insertSorted]
      split
      · simp
      · simp only [List.cons.sizeOf_spec, ih]
        omega

theorem sizeOf_sortEntries (l : List (String × FsNode)) : sizeOf (sortEntries l) = sizeOf l := by
  induction l with
  | nil => rfl
  | cons e rest ih =>
      simp only [sortEntries, sizeOf_insertSorted, ih, List.cons.sizeOf_spec]

theorem mem_insertSorted (x e : String × FsNode) (l : List (String × FsNode)) :
    x ∈ insertSorted e l ↔ x = e ∨ x ∈ l := by
  induction l with
  | nil => simp [insertSorted]
  | cons f rest ih =>
      simp only [insertSorted]
      split
      · simp [or_comm, or_assoc]
      · simp only [List.mem_cons, ih]
        tauto

theorem mem_sortEntries (x : String × FsNode) (l : List (String × FsNode)) :
    x ∈ sortEntries l ↔ x ∈ l := by
  induction l with
  | nil => simp [sortEntries]
  | cons e rest ih =>
      simp only [sortEntries, mem_insertSorted, ih, List.mem_cons]

theorem sizeOf_child_lt (name : String) (child : FsNode) (entries : List (String × FsNode))
    (h : (name, child) ∈ entries) : sizeOf child < sizeOf (FsNode.dir entries) := by
  have h1 := List.sizeOf_lt_of_mem h
  simp only [FsNode.dir.sizeOf_spec]
  simp only [Prod.mk.sizeOf_spec] at h1
  omega

mutual
/-- module.exports.findFiles : expand a root path into the list of
matching file paths.  A directory is expanded recursively over its
name-sorted entries, skipping entry names flagged by the backup test;
a non-directory is included iff the full path matches the extension
pattern. -/
def findFiles (sp : List String) (alts : List String) (node : FsNode) : List (List String) :=
  match node with
  | .file => if extPatternMatches alts (renderPath sp) then [sp] else []
  | .dir entries => findFilesEntries sp alts (sortEntries entries)
  termination_by sizeOf node
  decreasing_by
    all_goals simp only [FsNode.dir.sizeOf_spec, sizeOf_sortEntries, List.cons.sizeOf_spec,
      Prod.mk.sizeOf_spec]
    all_goals omega
/-- The directory scan loop of findFiles over the sorted entry list. -/
def findFilesEntries (sp : List String) (alts : List String)
    (entries : List (String × FsNode)) : List (List String) :=
  match entries with
  | [] => []
  | (name, child) :: rest =>
      (if isBackupName name then [] else findFiles (sp ++ [name]) alts child) ++
        findFilesEntries sp alts rest
  termination_by sizeOf entries
  decreasing_by
    all_goals simp only [FsNode.dir.sizeOf_spec, sizeOf_sortEntries, List.cons.sizeOf_spec,
      Prod.mk.sizeOf_spec]
    all_goals omega
end

/-- findFiles as called on a root path whose stat may fail: a root
that cannot be stat-ed is logged and contributes an empty list. -/
def findFilesOpt (sp : List String) (alts : List String) : Option FsNode → List (List String)
  | none => []
  | some n => findFiles sp alts n

mutual
/-- The directories whose entries the findFiles recursion reads
(the paths it descends into), in visit order. -/
def visitedDirs (sp : List String) (node : FsNode) : List (List String) :=
  match node with
  | .file => []
  | .dir entries => sp :: visitedDirsEntries sp (sortEntries entries)
  termination_by sizeOf node
  decreasing_by
    all_goals simp only [FsNode.dir.sizeOf_spec, sizeOf_sortEntries, List.cons.sizeOf_spec,
      Prod.mk.sizeOf_spec]
    all_goals omega
/-- The directory visits contributed by a sorted entry list. -/
def visitedDirsEntries (sp : List String) (entries : List (String × FsNode)) :
    List (List String) :=
  match entries with
  | [] => []
  | (name, child) :: rest =>
      (if isBackupName name then [] else visitedDirs (sp ++ [name]) child) ++
        visitedDirsEntries sp rest
  termination_by sizeOf entries
  decreasing_by
    all_goals simp only [FsNode.dir.sizeOf_spec, sizeOf_sortEntries, List.cons.sizeOf_spec,
      Prod.mk.sizeOf_spec]
    all_goals omega
end

theorem mem_findFilesEntries (sp alts : List String) (entries : List (String × FsNode))
    (p : List String) :
    p ∈ findFilesEntries sp alts entries ↔
      ∃ name child, (name, child) ∈ entries ∧ isBackupName name = false ∧
        p ∈ findFiles (sp ++ [name]) alts child := by
  induction entries with
  | nil => simp [findFilesEntries]
  | cons e rest ih =>
      obtain ⟨name, child⟩ := e
      cases hbn : isBackupName name with
      | true =>
          simp only [findFilesEntries, hbn, if_true, List.nil_append, ih, List.mem_cons]
          constructor
          · rintro ⟨n, c, hm, hb, hp⟩
            exact ⟨n, c, Or.inr hm, hb, hp⟩
          · rintro ⟨n, c, hm | hm, hb, hp⟩
            · rw [Prod.mk.injEq] at hm
              rw [hm.1, hbn] at hb
              cases hb
            · exact ⟨n, c, hm, hb, hp⟩
      | false =>
          simp only [findFilesEntries, hbn, if_false, List.mem_append, ih, List.mem_cons]
          constructor
          · rintro (hp | ⟨n, c, hm, hb, hp⟩)
            · exact ⟨name, child, Or.inl rfl, hbn, hp⟩
            · exact ⟨n, c, Or.inr hm, hb, hp⟩
          · rintro ⟨n, c, hm | hm, hb, hp⟩
            · rw [Prod.mk.injEq] at hm
              rw [hm.1] at hp
              rw [hm.2] at hp
              exact Or.inl hp
            · exact Or.inr ⟨n, c, hm, hb, hp⟩

theorem mem_visitedDirsEntries (sp : List String) (entries : List (String × FsNode))
    (d : List String) :
    d ∈ visitedDirsEntries sp entries ↔
      ∃ name child, (name, child) ∈ entries ∧ isBackupName name = false ∧
        d ∈ visitedDirs (sp ++ [name]) child := by
  induction entries with
  | nil => simp [visitedDirsEntries]
  | cons e rest ih =>
      obtain ⟨name, child⟩ := e
      cases hbn : isBackupName name with
      | true =>
          simp only [visitedDirsEntries, hbn, if_true, List.nil_append, ih, List.mem_cons]
          constructor
          · rintro ⟨n, c, hm, hb, hp⟩
            exact ⟨n, c, Or.inr hm, hb, hp⟩
          · rintro ⟨n, c, hm | hm, hb, hp⟩
            · rw [Prod.mk.injEq] at hm
              rw [hm.1, hbn] at hb
              cases hb
            · exact ⟨n, c, hm, hb, hp⟩
      | false =>
          simp only [visitedDirsEntries, hbn, if_false, List.mem_append, ih, List.mem_cons]
          constructor
          · rintro (hp | ⟨n, c, hm, hb, hp⟩)
            · exact ⟨name, child, Or.inl rfl, hbn, hp⟩
            · exact ⟨n, c, Or.inr hm, hb, hp⟩
          · rintro ⟨n, c, hm | hm, hb, hp⟩
            · rw [Prod.mk.injEq] at hm
              rw [hm.1] at hp
              rw [hm.2] at hp
              exact Or.inl hp
            · exact Or.inr ⟨n, c, hm, hb, hp⟩

theorem findFiles_lastSegment_aux (k : Nat) :
    ∀ node : FsNode, sizeOf node ≤ k → ∀ sp alts p, p ∈ findFiles sp alts node →
      p = sp ∨ isBackupName (p.getLastD "") = false := by
  induction k with
  | zero =>
      intro node h
      exfalso
      cases node <;> simp at h
  | succ k ih =>
      intro node h sp alts p hp
      cases node with
      | file =>
          simp only [findFiles] at hp
          split at hp
          · simp only [List.mem_singleton] at hp
            exact Or.inl hp
          · simp at hp
      | dir entries =>
          simp only [findFiles] at hp
          rw [mem_findFilesEntries] at hp
          obtain ⟨name, child, hm, hb, hp⟩ := hp
          rw [mem_sortEntries] at hm
          have hlt : sizeOf child < sizeOf (FsNode.dir entries) := sizeOf_child_lt name child entries hm
          have hch : sizeOf child ≤ k := by
            simp only [FsNode.dir.sizeOf_spec] at hlt h
            omega
          rcases ih child hch (sp ++ [name]) alts p hp with h1 | h1
          · rw [h1, List.getLastD_concat]
            exact Or.inr hb
          · exact Or.inr h1

theorem visitedDirs_lastSegment_aux (k : Nat) :
    ∀ node : FsNode, sizeOf node ≤ k → ∀ sp d, d ∈ visitedDirs sp node →
      d = sp ∨ isBackupName (d.getLastD "") = false := by
  induction k with
  | zero =>
      intro node h
      exfalso
      cases node <;> simp at h
  | succ k ih =>
      intro node h sp d hd
      cases node with
      | file => simp [visitedDirs] at hd
      | dir entries =>
          simp only [visitedDirs, List.mem_cons] at hd
          rcases hd with hd | hd
          · exact Or.inl hd
          · rw [mem_visitedDirsEntries] at hd
            obtain ⟨name, child, hm, hb, hd⟩ := hd
            rw [mem_sortEntries] at hm
            have hlt : sizeOf child < sizeOf (FsNode.dir entries) :=
              sizeOf_child_lt name child entries hm
            have hch : sizeOf child ≤ k := by
              simp only [FsNode.dir.sizeOf_spec] at hlt h
              omega
            rcases ih child hch (sp ++ [name]) d hd with h1 | h1
            · rw [h1, List.getLastD_concat]
              exact Or.inr hb
            · exact Or.inr h1

/-- Claim C5 counterexample: the backup skip applies only to entry
names longer than two characters, so an entry named exactly the
two-character marker is neither filtered from the results nor
protected from descent.  With the one-root directory containing an
entry named dot underscore: under the extension pattern with
alternative underscore the scanner returns the path whose final
segment is exactly the marker; and with a directory so named, the
scanner descends into it (its path appears in the visited-directory
list) under the ordinary js pattern. -/
theorem claim_C5_counterexample :
    findFiles ["r"] ["_"] (FsNode.dir [("._", FsNode.file)]) = [["r", "._"]] ∧
    (["r", "._"].getLastD "") = "._" ∧
    visitedDirs ["r"] (FsNode.dir [("._", FsNode.dir [("a.js", FsNode.file)])]) =
      [["r"], ["r", "._"]] := by
  refine ⟨?_, by decide, ?_⟩
  · simp [findFiles, findFilesEntries, sortEntries, insertSorted]
    decide
  · simp only [visitedDirs, visitedDirsEntries, sortEntries, insertSorted, isBackupName]
    decide

/-- Claim C5 amended: for every root path and extension pattern, every
path the scanner returns, and every directory it descends into, is
either the root path itself (which is never filtered) or has as final
segment an entry name that fails the backup test, i.e. a name that is
not both longer than two characters and starting with the
two-character marker.  (The original claim fails because a name of
exactly two characters beginning with the marker is not skipped, and
because the root itself is exempt.) -/
theorem claim_C5 :
    (∀ (sp alts : List String) (node : FsNode) (p : List String),
        p ∈ findFiles sp alts node → p = sp ∨ isBackupName (p.getLastD "") = false) ∧
    (∀ (sp : List String) (node : FsNode) (d : List String),
        d ∈ visitedDirs sp node → d = sp ∨ isBackupName (d.getLastD "") = false) := by
  constructor
  · intro sp alts node p hp
    exact findFiles_lastSegment_aux (sizeOf node) node le_rfl sp alts p hp
  · intro sp node d hd
    exact visitedDirs_lastSegment_aux (sizeOf node) node le_rfl sp d hd

/-- Witness for claim C5 at a concrete scan: the returned path of a
one-file directory satisfies the conclusion. -/
theorem claim_C5_witness :
    ["r", "a.js"] = ["r"] ∨ isBackupName (["r", "a.js"].getLastD "") = false :=
  claim_C5.1 ["r"] ["js"] (FsNode.dir [("a.js", FsNode.file)]) ["r", "a.js"]
    (by simp only [findFiles, findFilesEntries, sortEntries, insertSorted]
        decide)

/-- Claim C10: the compiled extension pattern does not require a
literal dot before the extension.  First conjunct: for strings free of
line terminators (file paths), the pattern matches exactly the strings
that decompose as an arbitrary prefix, one arbitrary character, and
one of the extension alternatives.  Second and third conjuncts: the
filter accepts the concrete path blahajs under the js pattern even
though it contains no dot at all. -/
theorem claim_C10 :
    (∀ (alts : List String) (s : String), (∀ c ∈ s.data, isLineTerminator c = false) →
      (extPatternMatches alts s = true ↔
        ∃ e ∈ alts, ∃ pre c, s.data = pre ++ c :: e.data)) ∧
    extPatternMatches ["js"] "blahajs" = true ∧
    "blahajs".data.all (fun c => c != '.') = true := by
  refine ⟨?_, by decide, by decide⟩
  intro alts s hnl
  unfold extPatternMatches
  rw [List.any_eq_true]
  constructor
  · rintro ⟨e, he, hcond⟩
    rw [Bool.and_eq_true, Bool.and_eq_true] at hcond
    obtain ⟨⟨hsuf, hlen⟩, _⟩ := hcond
    rw [List.isSuffixOf_iff_suffix] at hsuf
    obtain ⟨t, ht⟩ := hsuf
    rw [decide_eq_true_eq] at hlen
    have htne : t ≠ [] := by
      intro h0
      rw [h0, List.nil_append] at ht
      rw [ht] at hlen
      omega
    refine ⟨e, he, t.dropLast, t.getLast htne, ?_⟩
    rw [← ht]
    nth_rewrite 1 [← List.dropLast_append_getLast htne]
    rw [List.append_assoc, List.singleton_append]
  · rintro ⟨e, he, pre, c, hdec⟩
    refine ⟨e, he, ?_⟩
    rw [Bool.and_eq_true, Bool.and_eq_true]
    have hsuf : e.data <:+ s.data := ⟨pre ++ [c], by rw [List.append_assoc, List.singleton_append, hdec]⟩
    refine ⟨⟨?_, ?_⟩, ?_⟩
    · rw [List.isSuffixOf_iff_suffix]
      exact hsuf
    · rw [decide_eq_true_eq, hdec]
      simp only [List.length_append, List.length_cons]
      omega
    · rw [List.all_eq_true]
      intro x hx
      have : x ∈ s.data := List.mem_of_mem_take hx
      rw [hnl x this]
      rfl

/-- Result of fs.statSync on a path: none when the call throws; some
of the mtime when it succeeds, the inner option being none when
stats.mtime is undefined.  Times are Date.getTime() values. -/
abbrev StatResult := Option (Option Int)

/-- outputTime as computed by shouldCompile_ lines 423-430: it stays 0
unless statSync succeeds and stats.mtime is defined, in which case it
is mtime.getTime(). -/
def outputTimeOf (outStat : StatResult) : Int :=
  match outStat with
  | some (some t) => t
  | _ => 0

/-- The per-file test of the shouldCompile_ scan body (lines 438-448):
a stat exception or an undefined mtime contributes nothing; otherwise
the file counts iff its mtime strictly exceeds outputTime. -/
def fileIsNewer (m : List String → StatResult) (t : Int) (f : List String) : Bool :=
  match m f with
  | some (some ft) => decide (ft > t)
  | _ => false

/-- The inner file loop of shouldCompile_ over one root: files are
visited in order and the loop breaks at the first file strictly newer
than outputTime. -/
def scanRoot (m : List String → StatResult) (t : Int) : List (List String) → Bool
  | [] => false
  | f :: rest => if fileIsNewer m t f then true else scanRoot m t rest

/-- The outer root loop of shouldCompile_ with its result accumulator:
the break leaves only the inner loop, so the inner loop runs for every
root, and result, once true, is never reset. -/
def scanRoots (m : List String → StatResult) (t : Int) (alts : List String) :
    List (List String × Option FsNode) → Bool → Bool
  | [], result => result
  | r :: rest, result =>
      scanRoots m t alts rest (result || scanRoot m t (findFilesOpt r.1 alts r.2))

/-- UberCompiler.prototype.shouldCompile_ : the staleness oracle.
Each input root is paired with the result of resolving it to a
filesystem tree (none models a stat failure on the root inside
findFiles); outStat is the stat of the output artifact; m gives the
stat of each discovered input file. -/
def shouldCompile (inputs : List (List String × Option FsNode)) (outStat : StatResult)
    (m : List String → StatResult) (alts : List String) : Bool :=
  if inputs.length = 0 then false
  else if outputTimeOf outStat = 0 then true
  else scanRoots m (outputTimeOf outStat) alts inputs false

/-- The staleness oracle as claim C3 words it: never compile on an
empty root list; compile when the artifact cannot be stat-ed or has no
readable modification time; otherwise compile iff some discovered
input file has a modification time strictly exceeding that of the
artifact, individual stat failures counting as not newer. -/
def shouldCompileClaimed (inputs : List (List String × Option FsNode)) (outStat : StatResult)
    (m : List String → StatResult) (alts : List String) : Bool :=
  if inputs.length = 0 then false
  else
    match outStat with
    | none => true
    | some none => true
    | some (some t) =>
        inputs.any (fun r => (findFilesOpt r.1 alts r.2).any (fun f =>
          match m f with
          | some (some ft) => decide (ft > t)
          | _ => false))

/-- The files the shouldCompile_ scan stats within one root, in order:
every file up to and including the first one strictly newer than
outputTime (the break fires after that stat). -/
def stattedInRoot (m : List String → StatResult) (t : Int) :
    List (List String) → List (List String)
  | [] => []
  | f :: rest => f :: (if fileIsNewer m t f then [] else stattedInRoot m t rest)

/-- All files the shouldCompile_ scan stats, across all roots: the
outer loop visits every root whatever the result so far. -/
def shouldCompileStatted (inputs : List (List String × Option FsNode)) (outStat : StatResult)
    (m : List String → StatResult) (alts : List String) : List (List String) :=
  if inputs.length = 0 then []
  else if outputTimeOf outStat = 0 then []
  else (inputs.map (fun r => stattedInRoot m (outputTimeOf outStat)
    (findFilesOpt r.1 alts r.2))).flatten

theorem scanRoot_eq_any (m : List String → StatResult) (t : Int) (files : List (List String)) :
    scanRoot m t files = files.any (fileIsNewer m t) := by
  induction files with
  | nil => rfl
  | cons f rest ih =>
      simp only [scanRoot, List.any_cons, ih]
      split
      · rename_i h
        rw [h, Bool.true_or]
      · rename_i h
        rw [Bool.not_eq_true] at h
        rw [h, Bool.false_or]

theorem scanRoots_eq (m : List String → StatResult) (t : Int) (alts : List String)
    (l : List (List String × Option FsNode)) :
    ∀ acc : Bool, scanRoots m t alts l acc =
      (acc || l.any (fun r => scanRoot m t (findFilesOpt r.1 alts r.2))) := by
  induction l with
  | nil => intro acc; simp [scanRoots]
  | cons r rest ih =>
      intro acc
      simp only [scanRoots, ih, List.any_cons, Bool.or_assoc]

/-- Claim C3 counterexample: an artifact that stats successfully with
a perfectly readable modification time equal to 0 (the epoch).  The
claim says the oracle should then compare input times against 0 and
find nothing newer (the only input also has time 0), i.e. return
false; the code tests the time for truthiness, conflates 0 with
missing, and returns true. -/
theorem claim_C3_counterexample :
    shouldCompile [(["a.js"], some FsNode.file)] (some (some 0))
      (fun _ => some (some 0)) ["js"] = true ∧
    shouldCompileClaimed [(["a.js"], some FsNode.file)] (some (some 0))
      (fun _ => some (some 0)) ["js"] = false := by
  constructor
  · rfl
  · simp [shouldCompileClaimed, findFilesOpt, findFiles]

/-- Claim C3 amended: the oracle returns false on an empty root list;
it returns true when the artifact cannot be stat-ed, yields no
readable modification time, or its modification time reads as exactly
0 (the code uses 0 as the missing sentinel and tests it for
truthiness); otherwise it returns true iff some discovered input file
has a stat-readable modification time strictly exceeding the artifact
time, a stat failure on an individual input file counting as not
newer. -/
theorem claim_C3 (inputs : List (List String × Option FsNode)) (outStat : StatResult)
    (m : List String → StatResult) (alts : List String) :
    shouldCompile inputs outStat m alts = true ↔
      inputs ≠ [] ∧
        ((outStat = none ∨ outStat = some none ∨ outStat = some (some 0)) ∨
          ∃ t, outStat = some (some t) ∧
            ∃ r ∈ inputs, ∃ f ∈ findFilesOpt r.1 alts r.2,
              ∃ ft, m f = some (some ft) ∧ ft > t) := by
  unfold shouldCompile
  have hfin : ∀ (f : List String) (t : Int),
      fileIsNewer m t f = true ↔ ∃ ft, m f = some (some ft) ∧ ft > t := by
    intro f t
    unfold fileIsNewer
    cases hm : m f with
    | none => simp
    | some o =>
        cases o with
        | none => simp
        | some ft => simp
  split
  · rename_i hlen
    have : inputs = [] := List.length_eq_zero.mp hlen
    simp [this]
  · rename_i hlen
    have hne : inputs ≠ [] := by
      intro h
      rw [h] at hlen
      exact hlen rfl
    split
    · rename_i hzero
      simp only [true_iff]
      refine ⟨hne, Or.inl ?_⟩
      unfold outputTimeOf at hzero
      cases outStat with
      | none => exact Or.inl rfl
      | some o =>
          cases o with
          | none => exact Or.inr (Or.inl rfl)
          | some t =>
              simp only at hzero
              rw [hzero]
              exact Or.inr (Or.inr rfl)
    · rename_i hzero
      rw [scanRoots_eq, Bool.false_or, List.any_eq_true]
      constructor
      · rintro ⟨r, hr, hscan⟩
        rw [scanRoot_eq_any, List.any_eq_true] at hscan
        obtain ⟨f, hf, hnew⟩ := hscan
        rw [hfin] at hnew
        obtain ⟨ft, hm, hgt⟩ := hnew
        refine ⟨hne, Or.inr ?_⟩
        cases houtc : outStat with
        | none => rw [houtc] at hzero; exact absurd rfl hzero
        | some o =>
            cases o with
            | none => rw [houtc] at hzero; exact absurd rfl hzero
            | some t =>
                refine ⟨t, rfl, r, hr, f, hf, ft, hm, ?_⟩
                rw [houtc] at hgt
                exact hgt
      · rintro ⟨-, hcase | ⟨t, hout, r, hr, f, hf, ft, hm, hgt⟩⟩
        · exfalso
          apply hzero
          rcases hcase with h | h | h <;> rw [h] <;> rfl
        · refine ⟨r, hr, ?_⟩
          rw [scanRoot_eq_any, List.any_eq_true]
          refine ⟨f, hf, ?_⟩
          rw [hfin, hout]
          exact ⟨ft, hm, hgt⟩

theorem mem_stattedInRoot (m : List String → StatResult) (t : Int) :
    ∀ (files : List (List String)) (f : List String),
      f ∈ stattedInRoot m t files ↔
        ∃ k : Nat, files[k]? = some f ∧
          ∀ j : Nat, j < k → ∀ g, files[j]? = some g → fileIsNewer m t g = false := by
  intro files
  induction files with
  | nil =>
      intro f
      simp [stattedInRoot]
  | cons g rest ih =>
      intro f
      simp only [stattedInRoot, List.mem_cons]
      constructor
      · rintro (rfl | hf)
        · refine ⟨0, by simp, ?_⟩
          intro j hj
          omega
        · split at hf
          · simp at hf
          · rename_i hnew
            rw [Bool.not_eq_true] at hnew
            obtain ⟨k, hk, hall⟩ := (ih f).1 hf
            refine ⟨k + 1, by simpa using hk, ?_⟩
            intro j hj g2 hg2
            cases j with
            | zero =>
                simp only [List.getElem?_cons_zero, Option.some.injEq] at hg2
                rw [← hg2]
                exact hnew
            | succ j =>
                simp only [List.getElem?_cons_succ] at hg2
                exact hall j (by omega) g2 hg2
      · rintro ⟨k, hk, hall⟩
        cases k with
        | zero =>
            simp only [List.getElem?_cons_zero, Option.some.injEq] at hk
            exact Or.inl hk.symm
        | succ k =>
            simp only [List.getElem?_cons_succ] at hk
            have hg0 : fileIsNewer m t g = false := hall 0 (by omega) g (by simp)
            right
            rw [hg0]
            simp only [Bool.false_eq_true, if_false]
            refine (ih f).2 ⟨k, hk, ?_⟩
            intro j hj g2 hg2
            exact hall (j + 1) (by omega) g2 (by simpa using hg2)

theorem mem_shouldCompileStatted (inputs : List (List String × Option FsNode))
    (outStat : StatResult) (m : List String → StatResult) (alts : List String)
    (f : List String) :
    f ∈ shouldCompileStatted inputs outStat m alts ↔
      inputs.length ≠ 0 ∧ outputTimeOf outStat ≠ 0 ∧
        ∃ r ∈ inputs, f ∈ stattedInRoot m (outputTimeOf outStat)
          (findFilesOpt r.1 alts r.2) := by
  unfold shouldCompileStatted
  split
  · rename_i h
    simp [h]
  · split
    · rename_i h h2
      simp [h2]
    · rename_i h h2
      rw [List.mem_flatten]
      constructor
      · rintro ⟨l, hl, hf⟩
        rw [List.mem_map] at hl
        obtain ⟨r, hr, rfl⟩ := hl
        exact ⟨h, h2, r, hr, hf⟩
      · rintro ⟨-, -, r, hr, hf⟩
        exact ⟨_, List.mem_map_of_mem _ hr, hf⟩

/-- Claim C4 counterexample: two root paths; the single file of the
first root is strictly newer than the artifact, yet the file of the
second root is still stat-ed afterwards.  The break in shouldCompile_
leaves only the inner per-root loop, so the scan does not stop across
remaining root paths. -/
theorem claim_C4_counterexample :
    shouldCompileStatted
      [(["a.js"], some FsNode.file), (["b.js"], some FsNode.file)]
      (some (some 5))
      (fun f => if f = ["a.js"] then some (some 10) else some (some 1)) ["js"] =
      [["a.js"], ["b.js"]] ∧
    fileIsNewer (fun f => if f = ["a.js"] then some (some 10) else some (some 1)) 5
      ["a.js"] = true := by
  constructor
  · simp [shouldCompileStatted, outputTimeOf, findFilesOpt, findFiles, findFilesEntries,
      sortEntries, insertSorted, stattedInRoot, fileIsNewer]
  · decide

/-- Claim C4 amended: the scan short-circuits only within the current
root path.  First conjunct: within one root, a file is stat-ed iff
every file before it in that root is not strictly newer than the
artifact (so the scan of a root stops just after its first newer
file).  Second conjunct: across roots, a file of any root is stat-ed
under exactly that per-root condition, independent of what other roots
contain, so every remaining root path is still scanned after a newer
file has been found. -/
theorem claim_C4 :
    (∀ (m : List String → StatResult) (t : Int) (files : List (List String))
        (f : List String),
      f ∈ stattedInRoot m t files ↔
        ∃ k : Nat, files[k]? = some f ∧
          ∀ j : Nat, j < k → ∀ g, files[j]? = some g → fileIsNewer m t g = false) ∧
    (∀ (inputs : List (List String × Option FsNode)) (outStat : StatResult)
        (m : List String → StatResult) (alts : List String) (f : List String),
      f ∈ shouldCompileStatted inputs outStat m alts ↔
        inputs.length ≠ 0 ∧ outputTimeOf outStat ≠ 0 ∧
          ∃ r ∈ inputs, f ∈ stattedInRoot m (outputTimeOf outStat)
            (findFilesOpt r.1 alts r.2)) :=
  ⟨fun m t files f => mem_stattedInRoot m t files f,
   fun inputs outStat m alts f => mem_shouldCompileStatted inputs outStat m alts f⟩

/-- Events observable from the coordinator model: issuing a script or
style pipeline invocation (compileJs_ / compileCss_ starting work) and
firing the completion callback. -/
inductive Ev where
  | invokeJs : Ev
  | invokeCss : Ev
  | endCb : Ev
deriving DecidableEq

/-- The mutable coordinator and watcher state: the two busy flags, the
two changed-kind flags, the pending debounce timer handle, and the
watched-file list. -/
structure CoordState where
  compilingJs : Bool
  compilingCss : Bool
  fileChangedJs : Bool
  fileChangedCss : Bool
  timerPending : Bool
  watchedFiles : List String
deriving DecidableEq

/-- State of a freshly constructed coordinator (lines 115-123; the
busy flags are not assigned by the constructor and read as falsy). -/
def initState : CoordState :=
  { compilingJs := false, compilingCss := false, fileChangedJs := false,
    fileChangedCss := false, timerPending := false, watchedFiles := [] }

/-- UberCompiler.prototype.checkEnd_ : fire the end callback iff both
busy flags are falsy and a callback function was supplied. -/
def checkEnd (hasEndCallback : Bool) (s : CoordState) : List Ev :=
  if !s.compilingJs && !s.compilingCss then
    (if hasEndCallback then [Ev.endCb] else [])
  else []

/-- UberCompiler.prototype.compileJs_ as observed by the model: set
the busy flag and issue the script pipeline invocation (the soy and
closure stages then run asynchronously). -/
def compileJsStart (s : CoordState) : CoordState × List Ev :=
  ({ s with compilingJs := true }, [Ev.invokeJs])

/-- UberCompiler.prototype.compileCss_ as observed by the model: set
the busy flag and issue the style pipeline invocation. -/
def compileCssStart (s : CoordState) : CoordState × List Ev :=
  ({ s with compilingCss := true }, [Ev.invokeCss])

/-- The childProcess.exec callback of compileJsFinal_ (lines 235-248):
a non-empty stderr is logged and the callback returns at once; only on
success is the busy flag cleared and the idle check run. -/
def jsFinalCallback (hasEndCallback : Bool) (stderrNonEmpty : Bool) (s : CoordState) :
    CoordState × List Ev :=
  if stderrNonEmpty then (s, [])
  else
    ({ s with compilingJs := false },
      checkEnd hasEndCallback { s with compilingJs := false })

/-- The less.render callback of compileCss_ (lines 307-326): an error
is logged and the callback returns at once; only on success are the
artifacts written, the busy flag cleared and the idle check run. -/
def cssRenderCallback (hasEndCallback : Bool) (errPresent : Bool) (s : CoordState) :
    CoordState × List Ev :=
  if errPresent then (s, [])
  else
    ({ s with compilingCss := false },
      checkEnd hasEndCallback { s with compilingCss := false })

/-- The environment a run() consults: root paths of each kind resolved
to filesystem trees, artifact stats, per-file stats, and whether an
endCallback was supplied. -/
structure RunEnv where
  jsRoots : List (List String × Option FsNode)
  cssRoots : List (List String × Option FsNode)
  jsOutStat : StatResult
  cssOutStat : StatResult
  mtimeOf : List String → StatResult
  hasEndCallback : Bool

/-- shouldCompileJs_ : the staleness oracle over jsPaths with the
js or soy pattern. -/
def needJsOf (env : RunEnv) : Bool :=
  shouldCompile env.jsRoots env.jsOutStat env.mtimeOf ["js", "soy"]

/-- shouldCompileCss_ : the staleness oracle over cssPaths with the
css or less pattern. -/
def needCssOf (env : RunEnv) : Bool :=
  shouldCompile env.cssRoots env.cssOutStat env.mtimeOf ["css", "less"]

/-- UberCompiler.prototype.run : start each pipeline whose oracle says
stale, then run the idle check.  The watcher registration on line 130
has no synchronous effect on the modelled state. -/
def runStep (env : RunEnv) (s : CoordState) : CoordState × List Ev :=
  let p1 := if needJsOf env then compileJsStart s else (s, [])
  let p2 := if needCssOf env then compileCssStart p1.1 else (p1.1, [])
  (p2.1, p1.2 ++ p2.2 ++ checkEnd env.hasEndCallback p2.1)

/-- UberCompiler.prototype.onFileChange_ : classify the changed file
(script kinds take precedence; a file of neither kind sets no flag)
and rearm the shared debounce timer (clearTimeout then setTimeout). -/
def onFileChange (file : String) (s : CoordState) : CoordState :=
  let s1 :=
    if extPatternMatches ["js", "soy"] file then { s with fileChangedJs := true }
    else if extPatternMatches ["css", "less"] file then { s with fileChangedCss := true }
    else s
  { s1 with timerPending := true }

/-- The debounce timer callback (lines 391-402): null the timer
handle, then invoke each flagged pipeline unconditionally, with no
staleness re-check. -/
def timerFire (s : CoordState) : CoordState × List Ev :=
  let s0 := { s with timerPending := false }
  let p1 :=
    if s0.fileChangedJs then compileJsStart { s0 with fileChangedJs := false }
    else (s0, [])
  let p2 :=
    if p1.1.fileChangedCss then compileCssStart { p1.1 with fileChangedCss := false }
    else (p1.1, [])
  (p2.1, p1.2 ++ p2.2)

/-- UberCompiler.prototype.unwatch_ : drop the per-file subscriptions
and clear the discovered-file list. -/
def unwatch (s : CoordState) : CoordState := { s with watchedFiles := [] }

/-- UberCompiler.prototype.terminate : tear the watcher down (unless
watching was disabled).  Nothing else is touched: the debounce timer
handle and the changed-kind flags survive teardown. -/
def terminate (dontWatchFiles : Bool) (s : CoordState) : CoordState :=
  if dontWatchFiles then s else unwatch s

theorem mem_checkEnd (hasCb : Bool) (s : CoordState) (h : Ev.endCb ∈ checkEnd hasCb s) :
    s.compilingJs = false ∧ s.compilingCss = false := by
  cases hcj : s.compilingJs <;> cases hcc : s.compilingCss <;>
    simp [checkEnd, hcj, hcc] at h
  exact ⟨rfl, rfl⟩

/-- Claim C1 counterexample: with both pipelines Running, a failing
collaborator callback (non-empty diagnostic output) returns early:
the busy flag of the affected kind stays true and nothing is emitted,
for the script and the style pipeline alike; the flag is not cleared
as it is on success. -/
theorem claim_C1_counterexample :
    (jsFinalCallback true true
      { initState with compilingJs := true, compilingCss := true }).1.compilingJs = true ∧
    (jsFinalCallback true true
      { initState with compilingJs := true, compilingCss := true }).2 = [] ∧
    (cssRenderCallback true true
      { initState with compilingJs := true, compilingCss := true }).1.compilingCss = true ∧
    (cssRenderCallback true true
      { initState with compilingJs := true, compilingCss := true }).2 = [] := by
  decide

/-- Claim C1 amended: on a failure report the collaborator callback
leaves the whole state untouched and emits nothing, so the busy flag
is NOT cleared and the pipeline stays Running (a failed pipeline can
therefore block the completion callback); only on success does the
callback clear its busy flag (Running to Idle). -/
theorem claim_C1 :
    (∀ (hasCb : Bool) (s : CoordState),
      jsFinalCallback hasCb true s = (s, []) ∧
      (jsFinalCallback hasCb false s).1.compilingJs = false) ∧
    (∀ (hasCb : Bool) (s : CoordState),
      cssRenderCallback hasCb true s = (s, []) ∧
      (cssRenderCallback hasCb false s).1.compilingCss = false) := by
  constructor <;> intro hasCb s <;>
    exact ⟨by simp [jsFinalCallback, cssRenderCallback], by simp [jsFinalCallback, cssRenderCallback]⟩

/-- Claim C2 counterexample: a run() in which neither kind needs
compilation (both root lists empty) fires the completion callback even
though no pipeline was started by the run, refuting the condition that
the callback fires only when at least one pipeline was started. -/
theorem claim_C2_counterexample :
    (runStep
      { jsRoots := [], cssRoots := [], jsOutStat := none, cssOutStat := none,
        mtimeOf := fun _ => none, hasEndCallback := true } initState).2 = [Ev.endCb] := by
  rfl

/-- Claim C2 amended: the completion callback is emitted only at a
moment when both busy flags are false — by run(), by either success
callback, and never by the debounce timer — regardless of whether any
pipeline was started; and a run() in which neither kind needs
compilation emits exactly the completion callback (when one was
supplied), invoking no collaborator and leaving the state unchanged. -/
theorem claim_C2 :
    (∀ (env : RunEnv) (s : CoordState), Ev.endCb ∈ (runStep env s).2 →
      (runStep env s).1.compilingJs = false ∧ (runStep env s).1.compilingCss = false) ∧
    (∀ (hasCb fail : Bool) (s : CoordState), Ev.endCb ∈ (jsFinalCallback hasCb fail s).2 →
      (jsFinalCallback hasCb fail s).1.compilingJs = false ∧
        (jsFinalCallback hasCb fail s).1.compilingCss = false) ∧
    (∀ (hasCb fail : Bool) (s : CoordState), Ev.endCb ∈ (cssRenderCallback hasCb fail s).2 →
      (cssRenderCallback hasCb fail s).1.compilingJs = false ∧
        (cssRenderCallback hasCb fail s).1.compilingCss = false) ∧
    (∀ s : CoordState, Ev.endCb ∉ (timerFire s).2) ∧
    (∀ (env : RunEnv) (s : CoordState),
      needJsOf env = false → needCssOf env = false →
      s.compilingJs = false → s.compilingCss = false → env.hasEndCallback = true →
      (runStep env s).2 = [Ev.endCb] ∧ (runStep env s).1 = s) := by
  refine ⟨?_, ?_, ?_, ?_, ?_⟩
  · intro env s h
    cases hj : needJsOf env <;> cases hc : needCssOf env <;>
      simp only [runStep, hj, hc, if_true, if_false, compileJsStart, compileCssStart] at h ⊢
    · exact mem_checkEnd _ _ (by simpa using h)
    · simp [checkEnd] at h
    · simp [checkEnd] at h
    · simp [checkEnd] at h
  · intro hasCb fail s h
    cases fail with
    | true => simp [jsFinalCallback] at h
    | false =>
        simp only [jsFinalCallback, if_false] at h ⊢
        exact mem_checkEnd _ _ (by simpa using h)
  · intro hasCb fail s h
    cases fail with
    | true => simp [cssRenderCallback] at h
    | false =>
        simp only [cssRenderCallback, if_false] at h ⊢
        exact mem_checkEnd _ _ (by simpa using h)
  · intro s h
    cases h1 : s.fileChangedJs <;> cases h2 : s.fileChangedCss <;>
      simp [timerFire, compileJsStart, compileCssStart, h1, h2] at h
  · intro env s hj hc hsj hsc hcb
    simp [runStep, hj, hc, checkEnd, hsj, hsc, hcb]

/-- Witness for claim C2 at concrete values: a run over empty root
lists on an idle coordinator with a callback emits exactly the
completion callback and leaves the state unchanged. -/
theorem claim_C2_witness :
    (runStep
      { jsRoots := [], cssRoots := [], jsOutStat := some (some 3), cssOutStat := none,
        mtimeOf := fun _ => none, hasEndCallback := true } initState).2 = [Ev.endCb] ∧
    (runStep
      { jsRoots := [], cssRoots := [], jsOutStat := some (some 3), cssOutStat := none,
        mtimeOf := fun _ => none, hasEndCallback := true } initState).1 = initState :=
  claim_C2.2.2.2.2
    { jsRoots := [], cssRoots := [], jsOutStat := some (some 3), cssOutStat := none,
      mtimeOf := fun _ => none, hasEndCallback := true } initState
    rfl rfl rfl rfl rfl

/-- Claim C6 (demonstrating the divergence): terminate() only clears
the watch subscriptions; a debounce timer pending at teardown, armed
by an accepted script-kind change, still has its changed-kind flag and
timer handle set afterwards, and when it fires it still invokes the
script pipeline on the torn-down coordinator, setting its busy flag —
the callback is not a no-op after teardown as the specification
requires. -/
theorem claim_C6 :
    (terminate false (onFileChange "a.js" initState)).timerPending = true ∧
    (terminate false (onFileChange "a.js" initState)).fileChangedJs = true ∧
    (timerFire (terminate false (onFileChange "a.js" initState))).2 = [Ev.invokeJs] ∧
    (timerFire (terminate false (onFileChange "a.js" initState))).1.compilingJs = true := by
  decide

theorem foldlChangeJs (fs : List String) :
    ∀ s : CoordState, (∀ f ∈ fs, extPatternMatches ["js", "soy"] f = true) →
      fs.foldl (fun st f => onFileChange f st) s =
        (if fs.isEmpty then s else { s with fileChangedJs := true, timerPending := true }) := by
  induction fs with
  | nil => intro s _; rfl
  | cons f rest ih =>
      intro s hall
      have hf : extPatternMatches ["js", "soy"] f = true := hall f (by simp)
      simp only [List.foldl_cons, List.isEmpty_cons, Bool.false_eq_true, if_false]
      rw [ih _ (fun g hg => hall g (by simp [hg]))]
      unfold onFileChange
      rw [hf]
      split <;> simp

theorem foldlChangeCss (fs : List String) :
    ∀ s : CoordState, (∀ f ∈ fs, extPatternMatches ["js", "soy"] f = false ∧
        extPatternMatches ["css", "less"] f = true) →
      fs.foldl (fun st f => onFileChange f st) s =
        (if fs.isEmpty then s else { s with fileChangedCss := true, timerPending := true }) := by
  induction fs with
  | nil => intro s _; rfl
  | cons f rest ih =>
      intro s hall
      have hf := hall f (by simp)
      simp only [List.foldl_cons, List.isEmpty_cons, Bool.false_eq_true, if_false]
      rw [ih _ (fun g hg => hall g (by simp [hg]))]
      unfold onFileChange
      rw [hf.1, hf.2]
      split <;> simp

/-- Claim C7: any positive number of accepted change notifications of
the same resource kind arriving within one debounce window (so folded
into the same pending timer) produce, when the timer fires, exactly
one pipeline invocation for that kind — the fold emits nothing and the
fire emits the single invocation event, computed from the changed-kind
flags alone with no staleness oracle consulted. -/
theorem claim_C7 (fs : List String) (s : CoordState) (h1 : fs ≠ [])
    (h2 : s.fileChangedJs = false) (h3 : s.fileChangedCss = false) :
    ((∀ f ∈ fs, extPatternMatches ["js", "soy"] f = true) →
      (timerFire (fs.foldl (fun st f => onFileChange f st) s)).2 = [Ev.invokeJs]) ∧
    ((∀ f ∈ fs, extPatternMatches ["js", "soy"] f = false ∧
        extPatternMatches ["css", "less"] f = true) →
      (timerFire (fs.foldl (fun st f => onFileChange f st) s)).2 = [Ev.invokeCss]) := by
  have hne : fs.isEmpty = false := by
    cases fs with
    | nil => exact absurd rfl h1
    | cons f rest => rfl
  constructor
  · intro hall
    rw [foldlChangeJs fs s hall, hne]
    simp [timerFire, compileJsStart, compileCssStart, h3]
  · intro hall
    rw [foldlChangeCss fs s hall, hne]
    simp [timerFire, compileJsStart, compileCssStart, h2]

/-- Witness for claim C7: two script-kind notifications within the
window, then the fire, give exactly one script pipeline invocation. -/
theorem claim_C7_witness :
    (timerFire (["a.js", "b.soy"].foldl (fun st f => onFileChange f st) initState)).2 =
      [Ev.invokeJs] :=
  (claim_C7 ["a.js", "b.soy"] initState (by decide) rfl rfl).1 (by decide)

/-- Witness for claim C10: the characterization instantiated at the
dotless path blahajs under the js pattern. -/
theorem claim_C10_witness :
    extPatternMatches ["js"] "blahajs" = true ↔
      ∃ e ∈ ["js"], ∃ pre c, "blahajs".data = pre ++ c :: e.data :=
  claim_C10.1 ["js"] "blahajs" (by decide)

end Uber
